import Mathlib

/-!
Verification development for the cellmage conversation-ledger core.

The definitions below are shallow embeddings of the Python source:
* `HMState`, `hmAddMessage`, `hmSetHistory`, `hmClear`, `revertLastTurn`,
  `rollbackToCell`, `rebuildTracking` embed `cellmage/history_manager.py`
  (`HistoryManager`).
* `CMState`, `cmAddMessage`, `performRollback`, `dedupMessages`,
  `chatLlmParams` embed `cellmage/conversation_manager.py`
  (`ConversationManager`).
* `resolveLlmConfig`, `forwardedLlmConfig`, `sendMessage` embed
  `cellmage/chat_manager.py` (`ChatManager`).

Python dictionaries are modelled as association lists where the *last*
binding of a key wins (`dlookup` scans with `List.foldl`, so a later
binding shadows an earlier one), which matches `dict.update` /
`dict.__setitem__` semantics key-by-key.
-/

/-- Message role, embedding the `Literal['system', 'user', 'assistant']`
annotation of `cellmage/models.py` `Message.role`. -/
inductive Role where
  | system : Role
  | user : Role
  | assistant : Role
deriving DecidableEq

/-- One ledger entry, embedding `cellmage/models.py` `Message`.  The
`timestamp` and `metadata` fields of the source are never read by any of
the ledger operations modelled here and are omitted.  The source gives
`id` a random default (`uuid.uuid4`); an unset id is modelled as `""`,
matching the falsiness test `if not message.id` in the source. -/
structure Msg where
  role : Role
  content : String
  id : String
  executionCount : Option Int
  cellId : Option String
deriving DecidableEq

/-- Python truthiness of an `Optional[str]`: `None` and `""` are falsy. -/
def cellTruthy : Option String → Bool
  | none => false
  | some s => s != ""

/-- Last-binding-wins lookup in an association list, the observable
behaviour of a Python `dict` built by successive assignments. -/
def dlookup {α : Type} (l : List (String × α)) (k : String) : Option α :=
  l.foldl (fun acc p => if p.1 = k then some p.2 else acc) none

/-- Option fallback: the first operand if present, otherwise the second. -/
def oor {α : Type} : Option α → Option α → Option α
  | some a, _ => some a
  | none, b => b

/-- The body of `HistoryManager._rebuild_tracking`, generalised over the
index of the first listed message: every message with a truthy `cell_id`
contributes the binding `cell_id ↦ position`; the last binding wins. -/
def trackingFrom (start : Nat) : List Msg → List (String × Nat)
  | [] => []
  | m :: rest =>
    (match m.cellId with
     | some c => if c = "" then [] else [(c, start)]
     | none => []) ++ trackingFrom (start + 1) rest

/-- `HistoryManager._rebuild_tracking`: scan the messages once, recording
for each truthy `cell_id` the index of its last occurrence. -/
def rebuildTracking (msgs : List Msg) : List (String × Nat) :=
  trackingFrom 0 msgs

/-- State of `cellmage/history_manager.py` `HistoryManager`:
`_messages` and `_cell_tracking`. -/
structure HMState where
  messages : List Msg
  cellTracking : List (String × Nat)
deriving DecidableEq

/-- `HistoryManager.__init__`: store the initial messages and rebuild
tracking. -/
def hmNew (initial : List Msg) : HMState :=
  { messages := initial, cellTracking := rebuildTracking initial }

/-- `HistoryManager.add_message`: append, and if the message has a truthy
`cell_id`, record the new index as that cell's last contribution. -/
def hmAddMessage (s : HMState) (m : Msg) : HMState :=
  { messages := s.messages ++ [m]
    cellTracking :=
      match m.cellId with
      | some c =>
        if c = "" then s.cellTracking
        else s.cellTracking ++ [(c, s.messages.length)]
      | none => s.cellTracking }

/-- `HistoryManager.set_history`: replace the messages wholesale and
rebuild tracking from scratch. -/
def hmSetHistory (_ : HMState) (msgs : List Msg) : HMState :=
  { messages := msgs, cellTracking := rebuildTracking msgs }

/-- `HistoryManager.clear`: drop all messages and all tracking. -/
def hmClear (_ : HMState) : HMState :=
  { messages := [], cellTracking := [] }

/-- `HistoryManager.revert_last_turn`: on a nonempty history, remove the
trailing user/assistant pair when the last two roles are exactly
(user, assistant), otherwise remove just the last message; then rebuild
tracking. -/
def revertLastTurn (s : HMState) : HMState :=
  match s.messages.getLast? with
  | none => s
  | some lastMsg =>
    let cnt : Nat :=
      if s.messages.length ≥ 2 then
        match s.messages.dropLast.getLast? with
        | some prevMsg =>
          if prevMsg.role = Role.user ∧ lastMsg.role = Role.assistant then 2 else 1
        | none => 1
      else 1
    let msgs2 := s.messages.take (s.messages.length - cnt)
    { messages := msgs2, cellTracking := rebuildTracking msgs2 }

/-- Python list slicing `l[:p]` for a possibly negative bound `p`. -/
def pySliceTo (l : List Msg) (p : Int) : List Msg :=
  if p ≥ 0 then l.take p.toNat
  else l.take (l.length - (-p).toNat)

/-- The backward scan of `HistoryManager.rollback_to_cell` (the
`for i in range(last_index_for_cell, -1, -1)` loop).  `first` carries the
`first_index_for_cell` accumulator (initially `-1`); the result is the
final accumulator paired with whether the loop exited via `break`.
`none` models the `IndexError` of reading past the end of the list. -/
def scanLoop (msgs : List Msg) (cid : String) : Nat → Int → Option (Int × Bool)
  | 0, first =>
    match msgs[0]? with
    | none => none
    | some m => if m.cellId = some cid then some (0, false) else some (first, true)
  | i + 1, first =>
    match msgs[i + 1]? with
    | none => none
    | some m =>
      if m.cellId = some cid then scanLoop msgs cid i (Int.ofNat (i + 1))
      else some (first, true)

/-- `HistoryManager.rollback_to_cell`: look up the cell's last tracked
index, scan backward to the first contiguous contribution, and truncate
there.  Returns the new state and the reported rollback flag; `none`
models an uncaught `IndexError` on an inconsistent state. -/
def rollbackToCell (s : HMState) (cid : String) : Option (HMState × Bool) :=
  if cid = "" then some (s, false)
  else
    match dlookup s.cellTracking cid with
    | none => some (s, false)
    | some lastIdx =>
      match scanLoop s.messages cid lastIdx (-1) with
      | none => none
      | some (first, broke) =>
        if broke = false ∧ first = -1 then some (s, false)
        else if first < (s.messages.length : Int) then
          let msgs2 := pySliceTo s.messages first
          some ({ messages := msgs2, cellTracking := rebuildTracking msgs2 }, true)
        else some (s, false)

/-- The tracking invariant: the cache `_cell_tracking` agrees (as a map)
with what a fresh scan of `_messages` would produce. -/
def tracked (s : HMState) : Prop :=
  s.cellTracking = rebuildTracking s.messages

instance (s : HMState) : Decidable (tracked s) := by
  unfold tracked; infer_instance

/-- Modelled from the spec: `Message.generate_message_id` is called from
`ConversationManager` (`add_message`, `chat`, `set_default_persona`,
`add_snippet`) but is missing from `cellmage/models.py`; per the spec the
id is derived deterministically from (role, content, execution key,
execution ordinal).  Modelled as an injective-by-construction encoding of
the four fields. -/
def generateMessageId (role : Role) (content : String)
    (cellId : Option String) (execCount : Option Int) : String :=
  let roleStr :=
    match role with
    | Role.system => "system"
    | Role.user => "user"
    | Role.assistant => "assistant"
  let cellStr :=
    match cellId with
    | none => "-"
    | some c => "c" ++ c
  let execStr :=
    match execCount with
    | none => "-"
    | some n => "n" ++ toString n
  roleStr ++ "|" ++ execStr ++ "|" ++ cellStr ++ "|" ++ content

/-- State of `cellmage/conversation_manager.py` `ConversationManager`:
the in-memory `messages` list and the `cell_last_message_index` map.
The storage backend, persona and model-mapper state play no part in the
ledger operations modelled here. -/
structure CMState where
  messages : List Msg
  cellLastMessageIndex : List (String × Nat)
deriving DecidableEq

/-- `ConversationManager.__init__`: empty message list, empty tracking. -/
def cmNew : CMState :=
  { messages := [], cellLastMessageIndex := [] }

/-- `ConversationManager.add_message` (with no context provider): assign
the deterministic id when the message id is falsy, append, and update the
cell tracking for a truthy `cell_id`.  Saving to the store has no effect
on the in-memory state. -/
def cmAddMessage (s : CMState) (m : Msg) : CMState :=
  let m2 :=
    if m.id = "" then
      { m with id := generateMessageId m.role m.content m.cellId m.executionCount }
    else m
  { messages := s.messages ++ [m2]
    cellLastMessageIndex :=
      match m2.cellId with
      | some c =>
        if c = "" then s.cellLastMessageIndex
        else s.cellLastMessageIndex ++ [(c, s.messages.length)]
      | none => s.cellLastMessageIndex }

/-- `ConversationManager.perform_rollback` with an explicitly supplied
cell id: rolls back only when the tracked index is in bounds, holds an
assistant message, and is directly preceded by a user message; in that
case it truncates to the user message's index and deletes only the rolled
back key from the tracking map. -/
def performRollback (s : CMState) (cellId : Option String) : CMState × Bool :=
  if cellTruthy cellId = false then (s, false)
  else
    let cid := cellId.getD ""
    match dlookup s.cellLastMessageIndex cid with
    | none => (s, false)
    | some prevEnd =>
      match s.messages[prevEnd]? with
      | none => (s, false)
      | some mEnd =>
        if mEnd.role = Role.assistant then
          if prevEnd = 0 then (s, false)
          else
            match s.messages[prevEnd - 1]? with
            | none => (s, false)
            | some mStart =>
              if mStart.role = Role.user then
                ({ messages := s.messages.take (prevEnd - 1)
                   cellLastMessageIndex :=
                     s.cellLastMessageIndex.filter (fun p => p.1 != cid) }, true)
              else (s, false)
        else (s, false)

/-- The `(role, content)` pair used as the dedup key for non-system
messages (the source builds the string `f"{role}:{content}"`, which is in
bijection with the pair since roles contain no colon). -/
def msgKey (m : Msg) : Role × String :=
  (m.role, m.content)

/-- The non-system half of `ConversationManager._deduplicate_messages`:
walk the list from the end, keep a message only if its `(role, content)`
key was not seen yet, and reassemble in the surviving relative order. -/
def dedupKeepLatest (l : List Msg) : List Msg :=
  l.foldr
    (fun m acc => if msgKey m ∈ acc.map msgKey then acc else m :: acc) []

/-- The system half of `ConversationManager._deduplicate_messages` after
the persona message has been split off: walk the remaining (length
sorted) system messages from the end, dropping any whose content was
already seen, where the persona content counts as seen from the start. -/
def contentDedup (personaContent : String) (l : List Msg) : List Msg :=
  l.foldr
    (fun m acc =>
      if m.content = personaContent ∨ m.content ∈ acc.map (fun x => x.content)
      then acc else m :: acc) []

/-- Content-length order on messages, the sort key
`key=lambda m: len(m.content)` of `_deduplicate_messages`. -/
def msgLenLe (a b : Msg) : Prop :=
  a.content.length ≤ b.content.length

instance : DecidableRel msgLenLe := fun a b =>
  inferInstanceAs (Decidable (a.content.length ≤ b.content.length))

instance : IsTotal Msg msgLenLe :=
  ⟨fun a b => Nat.le_total a.content.length b.content.length⟩

instance : IsTrans Msg msgLenLe :=
  ⟨fun _ _ _ => Nat.le_trans⟩

/-- `ConversationManager._deduplicate_messages`: split off system
messages, stable-sort them by content length (Python's `sorted` is a
stable ascending sort, so any stable ascending sort by the same key
produces the identical list), take the shortest as the persona message,
dedup the remaining system messages by content keeping the latest
occurrence, dedup non-system messages by `(role, content)` keeping the
latest occurrence, and concatenate persona, other system, non-system. -/
def dedupMessages (messages : List Msg) : List Msg :=
  if messages = [] then []
  else
    let systemMessages := messages.filter (fun m => m.role == Role.system)
    let nonSystemMessages := messages.filter (fun m => m.role != Role.system)
    let dedupNonSystem := dedupKeepLatest nonSystemMessages
    match List.insertionSort msgLenLe systemMessages with
    | [] => dedupNonSystem
    | personaSystem :: restSorted =>
      personaSystem :: (contentDedup personaSystem.content restSorted ++ dedupNonSystem)

/-- Persona configuration, embedding `cellmage/models.py`
`PersonaConfig`: a system prompt plus declared request parameters.
Parameter values are opaque and modelled as strings. -/
structure PersonaConfig where
  name : String
  systemPrompt : String
  llmParams : List (String × String)
deriving DecidableEq

/-- `ChatManager._resolve_llm_config`: start from an empty dict, update
with the persona's declared parameters, then the instance overrides, then
the runtime parameters; later layers win key-by-key. -/
def resolveLlmConfig (persona : Option PersonaConfig)
    (overrides runtimeParams : List (String × String)) : List (String × String) :=
  (match persona with
   | some p => p.llmParams
   | none => []) ++ overrides ++ runtimeParams

/-- The parameter set `ChatManager.send_message` forwards to the model
client: the resolved config with `model` popped out (it is passed as a
separate call argument). -/
def forwardedLlmConfig (persona : Option PersonaConfig)
    (overrides runtimeParams : List (String × String)) : List (String × String) :=
  (resolveLlmConfig persona overrides runtimeParams).filter (fun kv => kv.1 != "model")

/-- Python falsiness of an optional model name: `None` or `""`. -/
def strOptFalsy : Option String → Bool
  | none => true
  | some s => s == ""

/-- The model-name resolution of `ChatManager.send_message` (step 3):
`llm_config.pop('model', None)`, falling back to
`_instance_overrides.get('model', settings.default_model_name)` when the
popped value is falsy. -/
def resolvedModelName (persona : Option PersonaConfig)
    (overrides runtimeParams : List (String × String))
    (defaultModelName : Option String) : Option String :=
  let fromConfig := dlookup (resolveLlmConfig persona overrides runtimeParams) "model"
  if strOptFalsy fromConfig then
    match dlookup overrides "model" with
    | some v => some v
    | none => defaultModelName
  else fromConfig

/-- The errors `ChatManager.send_message` can raise in the paths modelled
here: `ConfigurationError` (no resolvable model) and
`LLMInteractionError` (the model client raised). -/
inductive SendErr where
  | configuration : SendErr
  | llmInteraction : SendErr
deriving DecidableEq

/-- Step 1 of `ChatManager.send_message`: when auto-rollback is on and
the cell id is truthy, run `rollback_to_cell`; any exception it raises is
caught and logged, leaving the history as it was. -/
def rollbackPhase (pre : HMState) (cellId : Option String) (autoRollback : Bool) : HMState :=
  if autoRollback && cellTruthy cellId then
    match rollbackToCell pre (cellId.getD "") with
    | some (s2, _) => s2
    | none => pre
  else pre

/-- `ChatManager.send_message` over an abstract model-client outcome
(`Except.error` models the client raising, `Except.ok content` a
successful completion), non-streaming path: auto-rollback, append the
user message when `add_to_history`, resolve the model name (reverting and
raising `ConfigurationError` when none), invoke the client, and on client
failure revert the last turn and re-raise; on success append the
assistant message.  Returns the final history state and the call's
result. -/
def sendMessage (pre : HMState) (prompt : String) (execCount : Option Int)
    (cellId : Option String) (addToHistory autoRollback : Bool)
    (persona : Option PersonaConfig)
    (overrides runtimeParams : List (String × String))
    (defaultModelName : Option String)
    (clientOutcome : Except Unit String) : HMState × Except SendErr (Option Msg) :=
  let s1 := rollbackPhase pre cellId autoRollback
  let userMessage : Msg :=
    { role := Role.user, content := prompt, id := "",
      executionCount := execCount, cellId := cellId }
  let s2 := if addToHistory then hmAddMessage s1 userMessage else s1
  if strOptFalsy (resolvedModelName persona overrides runtimeParams defaultModelName) then
    (if addToHistory then revertLastTurn s2 else s2, Except.error SendErr.configuration)
  else
    match clientOutcome with
    | Except.error _ =>
      (if addToHistory then revertLastTurn s2 else s2, Except.error SendErr.llmInteraction)
    | Except.ok content =>
      if addToHistory then
        let assistantMessage : Msg :=
          { role := Role.assistant, content := content, id := "",
            executionCount := execCount, cellId := cellId }
        (hmAddMessage s2 assistantMessage, Except.ok (some assistantMessage))
      else (s2, Except.ok none)

/-- The allow-list of `ConversationManager.set_default_persona`
(`valid_llm_params`), which is also the fixed allow-list named by the
spec. -/
def svValidLlmParams : List String :=
  ["model", "temperature", "top_p", "n", "stream", "max_tokens",
   "presence_penalty", "frequency_penalty", "logit_bias", "stop"]

/-- The allow-list used inside `ConversationManager.chat` for a temporary
persona's parameters (`model` is handled separately there). -/
def chatValidLlmParams : List String :=
  ["temperature", "top_p", "n", "stream", "max_tokens",
   "presence_penalty", "frequency_penalty", "logit_bias", "stop"]

/-- The `llm_params` dict that `ConversationManager.chat` passes to the
model client: `model` set explicitly, then the temporary persona's
parameters filtered through the allow-list, then the contents of the
`overrides` keyword argument, then the remaining keyword arguments. -/
def chatLlmParams (modelName : String)
    (tempPersonaConfig overridesArg kwargs : List (String × String)) :
    List (String × String) :=
  ([("model", modelName)] ++
    tempPersonaConfig.filter (fun kv => decide (kv.1 ∈ chatValidLlmParams))) ++
  overridesArg ++ kwargs

/-! ### Association-list dictionary lemmas -/

theorem oor_none_left {α : Type} (b : Option α) : oor none b = b := rfl

theorem oor_some_left {α : Type} (a : α) (b : Option α) : oor (some a) b = some a := rfl

theorem dlookup_foldl {α : Type} (l : List (String × α)) (k : String) (init : Option α) :
    l.foldl (fun acc p => if p.1 = k then some p.2 else acc) init
      = oor (dlookup l k) init := by
  induction l generalizing init with
  | nil => simp [dlookup, oor]
  | cons p l ih =>
    show List.foldl _ (if p.1 = k then some p.2 else init) l = _
    rw [ih]
    have hl : dlookup (p :: l) k
        = List.foldl (fun acc q => if q.1 = k then some q.2 else acc)
            (if p.1 = k then some p.2 else none) l := rfl
    rw [hl, ih]
    rcases h : dlookup l k with _ | v
    · by_cases hp : p.1 = k <;> simp [oor, hp]
    · simp [oor]

theorem dlookup_append {α : Type} (a b : List (String × α)) (k : String) :
    dlookup (a ++ b) k = oor (dlookup b k) (dlookup a k) := by
  show List.foldl _ none (a ++ b) = _
  rw [List.foldl_append]
  have := dlookup_foldl b k (dlookup a k)
  simpa [dlookup] using this

theorem dlookup_none_of_all {α : Type} (l : List (String × α)) (k : String)
    (h : ∀ kv ∈ l, kv.1 ≠ k) : dlookup l k = none := by
  induction l with
  | nil => rfl
  | cons p l ih =>
    have hp : p.1 ≠ k := h p (by simp)
    have hrest : dlookup l k = none := ih fun kv hkv => h kv (by simp [hkv])
    show List.foldl _ (if p.1 = k then some p.2 else none) l = none
    rw [dlookup_foldl, hrest, if_neg hp]
    rfl

/-! ### Tracking-rebuild lemmas -/

theorem trackingFrom_append (a b : List Msg) (i : Nat) :
    trackingFrom i (a ++ b) = trackingFrom i a ++ trackingFrom (i + a.length) b := by
  induction a generalizing i with
  | nil => simp [trackingFrom]
  | cons m a ih =>
    show (match m.cellId with
        | some c => if c = "" then [] else [(c, i)]
        | none => []) ++ trackingFrom (i + 1) (a ++ b) = _
    rw [ih]
    have harith : i + 1 + a.length = i + (m :: a).length := by
      simp only [List.length_cons]; omega
    rw [harith]
    show _ = ((match m.cellId with
        | some c => if c = "" then [] else [(c, i)]
        | none => []) ++ trackingFrom (i + 1) a) ++ trackingFrom (i + (m :: a).length) b
    rw [List.append_assoc]

theorem dlookup_trackingFrom_of_not_mem (l : List Msg) (c : String) (i : Nat)
    (h : ∀ m ∈ l, m.cellId ≠ some c) : dlookup (trackingFrom i l) c = none := by
  induction l generalizing i with
  | nil => rfl
  | cons m l ih =>
    have hm : m.cellId ≠ some c := h m (by simp)
    have hrest := ih (i + 1) fun x hx => h x (by simp [hx])
    show dlookup ((match m.cellId with
      | some c2 => if c2 = "" then [] else [(c2, i)]
      | none => []) ++ trackingFrom (i + 1) l) c = none
    rw [dlookup_append, hrest, oor_none_left]
    rcases hcell : m.cellId with _ | c2
    · rfl
    · by_cases hne : c2 = ""
      · simp [hne, dlookup]
      · have : c2 ≠ c := fun hcc => hm (by rw [hcell, hcc])
        simp [hne, dlookup, this]

theorem dlookup_trackingFrom_of_all (l : List Msg) (c : String) (i : Nat)
    (hne : l ≠ []) (hc : c ≠ "") (h : ∀ m ∈ l, m.cellId = some c) :
    dlookup (trackingFrom i l) c = some (i + l.length - 1) := by
  induction l generalizing i with
  | nil => exact absurd rfl hne
  | cons m l ih =>
    have hm : m.cellId = some c := h m (by simp)
    show dlookup ((match m.cellId with
      | some c2 => if c2 = "" then [] else [(c2, i)]
      | none => []) ++ trackingFrom (i + 1) l) c = _
    rw [hm]
    rcases l with _ | ⟨m2, l2⟩
    · simp [trackingFrom, dlookup_append, dlookup, hc, oor]
    · have hrest := ih (i + 1) (by simp) fun x hx => h x (by simp [hx])
      rw [dlookup_append, hrest]
      simp only [oor_some_left, List.length_cons]
      congr 1
      omega

/-! ### Backward-scan lemmas -/

theorem scanLoop_stop (msgs : List Msg) (cid : String) (j : Nat) (a : Int) (m : Msg)
    (h : msgs[j]? = some m) (hm : m.cellId ≠ some cid) :
    scanLoop msgs cid j a = some (a, true) := by
  cases j with
  | zero => simp [scanLoop, h, hm]
  | succ i => simp [scanLoop, h, hm]

theorem scanLoop_step (msgs : List Msg) (cid : String) (i : Nat) (a : Int) (m : Msg)
    (h : msgs[i + 1]? = some m) (hm : m.cellId = some cid) :
    scanLoop msgs cid (i + 1) a = scanLoop msgs cid i (Int.ofNat (i + 1)) := by
  simp [scanLoop, h, hm]

theorem scanLoop_base (msgs : List Msg) (cid : String) (a : Int) (m : Msg)
    (h : msgs[0]? = some m) (hm : m.cellId = some cid) :
    scanLoop msgs cid 0 a = some (0, false) := by
  simp [scanLoop, h, hm]

theorem scanLoop_block (pre block post : List Msg) (cid : String)
    (hpre : ∀ m ∈ pre, m.cellId ≠ some cid)
    (hblock : ∀ m ∈ block, m.cellId = some cid) :
    ∀ d, d < block.length → ∀ a : Int,
      ∃ b, scanLoop (pre ++ (block ++ post)) cid (pre.length + d) a
        = some (Int.ofNat pre.length, b) := by
  have hblockGet : ∀ d, (hd : d < block.length) →
      ∃ m, (pre ++ (block ++ post))[pre.length + d]? = some m ∧ m.cellId = some cid := by
    intro d hd
    refine ⟨block.get ⟨d, hd⟩, ?_, hblock _ (block.get_mem _ _)⟩
    rw [List.getElem?_append_right (by omega)]
    have h2 : pre.length + d - pre.length = d := by omega
    rw [h2, List.getElem?_append_left hd, List.getElem?_eq_getElem hd]
    rfl
  have hpreGet : ∀ j, (hj : j < pre.length) →
      ∃ m, (pre ++ (block ++ post))[j]? = some m ∧ m.cellId ≠ some cid := by
    intro j hj
    refine ⟨pre.get ⟨j, hj⟩, ?_, hpre _ (pre.get_mem _ _)⟩
    rw [List.getElem?_append_left hj, List.getElem?_eq_getElem hj]
    rfl
  intro d
  induction d with
  | zero =>
    intro hd a
    obtain ⟨m0, hm0, hm0c⟩ := hblockGet 0 hd
    cases hp : pre.length with
    | zero =>
      refine ⟨false, ?_⟩
      rw [hp] at hm0
      rw [hp, Nat.zero_add] at *
      rw [scanLoop_base _ _ _ _ hm0 hm0c]
      simp
    | succ p =>
      refine ⟨true, ?_⟩
      simp only [Nat.add_zero] at hm0 ⊢
      rw [hp] at hm0
      rw [scanLoop_step _ _ _ _ _ hm0 hm0c]
      have hplt : p < pre.length := by omega
      obtain ⟨mp, hmp, hmpc⟩ := hpreGet p hplt
      rw [scanLoop_stop _ _ _ _ _ hmp hmpc]
  | succ d ih =>
    intro hd a
    have hdlt : d < block.length := by omega
    obtain ⟨b, hb⟩ := ih hdlt (Int.ofNat (pre.length + d + 1))
    refine ⟨b, ?_⟩
    obtain ⟨m1, hm1, hm1c⟩ := hblockGet (d + 1) hd
    have harr : pre.length + (d + 1) = pre.length + d + 1 := by omega
    rw [harr] at hm1
    rw [harr, scanLoop_step _ _ _ _ _ hm1 hm1c, hb]

theorem scanLoop_bound (msgs : List Msg) (cid : String) :
    ∀ i, (hi : i < msgs.length) → (msgs.get ⟨i, hi⟩).cellId = some cid →
      ∀ a : Int, ∃ f b, scanLoop msgs cid i a = some (f, b)
        ∧ 0 ≤ f ∧ f ≤ (i : Int) := by
  intro i
  induction i with
  | zero =>
    intro hi hc a
    have h0 : msgs[0]? = some (msgs.get ⟨0, hi⟩) := by
      rw [List.getElem?_eq_getElem hi]; rfl
    exact ⟨0, false, scanLoop_base _ _ _ _ h0 hc, by omega, by omega⟩
  | succ i ih =>
    intro hi hc a
    have hsucc : msgs[i + 1]? = some (msgs.get ⟨i + 1, hi⟩) := by
      rw [List.getElem?_eq_getElem hi]; rfl
    have hstep := scanLoop_step msgs cid i a _ hsucc hc
    have hilt : i < msgs.length := by omega
    by_cases hcase : (msgs.get ⟨i, hilt⟩).cellId = some cid
    · obtain ⟨f, b, hfb, hf0, hfi⟩ := ih hilt hcase (Int.ofNat (i + 1))
      refine ⟨f, b, by rw [hstep, hfb], hf0, ?_⟩
      have : (i : Int) ≤ (i + 1 : Nat) := by omega
      omega
    · have hm : msgs[i]? = some (msgs.get ⟨i, hilt⟩) := by
        rw [List.getElem?_eq_getElem hilt]; rfl
      refine ⟨Int.ofNat (i + 1), true, ?_, ?_, ?_⟩
      · rw [hstep, scanLoop_stop _ _ _ _ _ hm hcase]
      · have : Int.ofNat (i + 1) = ((i + 1 : Nat) : Int) := rfl
        omega
      · have : Int.ofNat (i + 1) = ((i + 1 : Nat) : Int) := rfl
        omega

/-! ### Rollback lemmas -/

theorem rollbackToCell_of_lookup_none (s : HMState) (cid : String)
    (h : dlookup s.cellTracking cid = none) :
    rollbackToCell s cid = some (s, false) := by
  unfold rollbackToCell
  by_cases hc : cid = ""
  · simp [hc]
  · simp [hc, h]

theorem tracked_lookup_none (s : HMState) (cid : String) (ht : tracked s)
    (h : ∀ m ∈ s.messages, m.cellId ≠ some cid) :
    dlookup s.cellTracking cid = none := by
  rw [ht]
  exact dlookup_trackingFrom_of_not_mem s.messages cid 0 h

theorem rollbackToCell_contiguous (s : HMState) (cid : String)
    (pre block post : List Msg)
    (ht : tracked s) (hcid : cid ≠ "")
    (hd : s.messages = pre ++ (block ++ post))
    (hpre : ∀ m ∈ pre, m.cellId ≠ some cid)
    (hblock : ∀ m ∈ block, m.cellId = some cid)
    (hbne : block ≠ [])
    (hpost : ∀ m ∈ post, m.cellId ≠ some cid) :
    rollbackToCell s cid = some (hmNew pre, true) := by
  have hblen : 1 ≤ block.length := by
    cases block with
    | nil => exact absurd rfl hbne
    | cons b bl => simp
  have hlookup : dlookup s.cellTracking cid = some (pre.length + (block.length - 1)) := by
    rw [ht, hd]
    show dlookup (trackingFrom 0 (pre ++ (block ++ post))) cid = _
    rw [trackingFrom_append, trackingFrom_append, dlookup_append, dlookup_append]
    rw [dlookup_trackingFrom_of_not_mem post cid _ hpost]
    rw [dlookup_trackingFrom_of_not_mem pre cid 0 hpre]
    rw [dlookup_trackingFrom_of_all block cid _ hbne hcid hblock]
    show some (0 + pre.length + block.length - 1) = _
    congr 1
    omega
  obtain ⟨b, hscan⟩ := scanLoop_block pre block post cid hpre hblock
    (block.length - 1) (by omega) (-1)
  have hofnat : Int.ofNat pre.length = ((pre.length : Nat) : Int) := rfl
  have hcond : ¬(b = false ∧ Int.ofNat pre.length = -1) := by
    rintro ⟨-, habs⟩
    rw [hofnat] at habs
    omega
  have hlt : Int.ofNat pre.length < (((pre ++ (block ++ post)).length : Nat) : Int) := by
    rw [hofnat]
    have : (pre ++ (block ++ post)).length = pre.length + (block.length + post.length) := by
      simp
    rw [this]
    push_cast
    omega
  have hslice : pySliceTo (pre ++ (block ++ post)) (Int.ofNat pre.length) = pre := by
    unfold pySliceTo
    rw [if_pos (by rw [hofnat]; omega)]
    show (pre ++ (block ++ post)).take ((pre.length : Int)).toNat = pre
    rw [Int.toNat_natCast]
    exact List.take_left pre (block ++ post)
  unfold rollbackToCell
  rw [hd]
  simp only [if_neg hcid, hlookup, hscan, if_neg hcond, if_pos hlt, hslice]
  rfl

theorem hmNew_tracked (initial : List Msg) : tracked (hmNew initial) := rfl

theorem hmAddMessage_tracked (s : HMState) (m : Msg) (ht : tracked s) :
    tracked (hmAddMessage s m) := by
  unfold tracked hmAddMessage rebuildTracking at *
  rw [trackingFrom_append, ← ht]
  show _ = s.cellTracking ++ trackingFrom (0 + s.messages.length) [m]
  rw [Nat.zero_add]
  show _ = s.cellTracking ++ ((match m.cellId with
    | some c => if c = "" then [] else [(c, s.messages.length)]
    | none => []) ++ trackingFrom (s.messages.length + 1) [])
  rcases m.cellId with _ | c
  · simp [trackingFrom]
  · by_cases hc : c = "" <;> simp [hc, trackingFrom]

theorem rollbackToCell_tracked (s : HMState) (cid : String) (s2 : HMState) (b : Bool)
    (ht : tracked s) (h : rollbackToCell s cid = some (s2, b)) : tracked s2 := by
  unfold rollbackToCell at h
  split at h
  · simp only [Option.some.injEq, Prod.mk.injEq] at h
    obtain ⟨h1, -⟩ := h
    exact h1 ▸ ht
  · split at h
    · simp only [Option.some.injEq, Prod.mk.injEq] at h
      obtain ⟨h1, -⟩ := h
      exact h1 ▸ ht
    · split at h
      · exact absurd h (by simp)
      · split at h
        · simp only [Option.some.injEq, Prod.mk.injEq] at h
          obtain ⟨h1, -⟩ := h
          exact h1 ▸ ht
        · split at h
          · simp only [Option.some.injEq, Prod.mk.injEq] at h
            obtain ⟨h1, -⟩ := h
            rw [← h1]
            unfold tracked
            rfl
          · simp only [Option.some.injEq, Prod.mk.injEq] at h
            obtain ⟨h1, -⟩ := h
            exact h1 ▸ ht

theorem rollbackPhase_tracked (pre : HMState) (cellId : Option String)
    (autoRollback : Bool) (ht : tracked pre) :
    tracked (rollbackPhase pre cellId autoRollback) := by
  unfold rollbackPhase
  split
  · rcases h : rollbackToCell pre (cellId.getD "") with _ | ⟨s2, b⟩
    · exact ht
    · exact rollbackToCell_tracked pre _ s2 b ht h
  · exact ht

theorem revertLastTurn_add (s : HMState) (u : Msg)
    (ht : tracked s) (hu : u.role = Role.user) :
    revertLastTurn (hmAddMessage s u) = s := by
  have hmsgs : (hmAddMessage s u).messages = s.messages ++ [u] := rfl
  unfold revertLastTurn
  rw [hmsgs, List.getLast?_concat]
  simp only
  have htake : ∀ cnt, cnt = 1 →
      (s.messages ++ [u]).take ((s.messages ++ [u]).length - cnt) = s.messages := by
    intro cnt hcnt
    rw [hcnt]
    have hlen : (s.messages ++ [u]).length - 1 = s.messages.length := by
      simp
    rw [hlen]
    exact List.take_left s.messages [u]
  rcases hsm : s.messages with _ | ⟨m0, rest⟩
  · have hlen1 : ¬((List.nil ++ [u] : List Msg).length ≥ 2) := by simp
    rw [if_neg hlen1]
    have h1 := htake 1 rfl
    rw [hsm] at h1
    rw [h1]
    have ht2 : s.cellTracking = [] := by
      rw [ht, hsm]; rfl
    cases s with
    | mk ms ct =>
      simp only at hsm ht2
      rw [hsm, ht2]
      rfl
  · have hlen2 : ((m0 :: rest) ++ [u] : List Msg).length ≥ 2 := by
      simp
    rw [if_pos hlen2]
    rw [List.dropLast_concat]
    have hne : m0 :: rest ≠ [] := by simp
    obtain ⟨prev, hprev⟩ := List.getLast?_isSome.mpr hne |> Option.isSome_iff_exists.mp
    rw [hprev]
    have hcond : ¬(prev.role = Role.user ∧ u.role = Role.assistant) := by
      rintro ⟨-, habs⟩
      rw [hu] at habs
      exact Role.noConfusion habs
    simp only [if_neg hcond]
    have h1 := htake 1 rfl
    rw [hsm] at h1
    rw [h1]
    cases s with
    | mk ms ct =>
      simp only at hsm
      have ht2 : ct = rebuildTracking (m0 :: rest) := by
        have := ht
        unfold tracked at this
        simp only at this
        rw [hsm] at this
        exact this
      rw [hsm, ht2]

theorem rollbackPhase_of_lookup_none (pre : HMState) (cellId : Option String)
    (autoRollback : Bool)
    (h : dlookup pre.cellTracking (cellId.getD "") = none) :
    rollbackPhase pre cellId autoRollback = pre := by
  unfold rollbackPhase
  split
  · rw [rollbackToCell_of_lookup_none _ _ h]
  · rfl

/-- A concrete message constructor used by the concrete scenarios below. -/
def mkMsg (r : Role) (c : String) (cid : Option String) : Msg :=
  { role := r, content := c, id := "id:" ++ c, executionCount := none, cellId := cid }

/-- Claim C10: whenever `rollback_to_cell` is called with a key that is
present in the tracking index and the tracking invariant holds at that
key (the tracked position is in bounds and the entry there carries the
key), the scan succeeds, at least one entry is removed, and the operation
returns `True`; in particular the "inconsistent state" and "last
contributor, no subsequent messages" branches that return `False` after a
successful lookup are not reached. -/
theorem c10_rollback_true_under_invariant (s : HMState) (cid : String) (i : Nat)
    (hc : cid ≠ "") (hl : dlookup s.cellTracking cid = some i)
    (hi : i < s.messages.length)
    (hcell : (s.messages.get ⟨i, hi⟩).cellId = some cid) :
    ∃ s2, rollbackToCell s cid = some (s2, true)
      ∧ s2.messages.length < s.messages.length := by
  obtain ⟨f, b, hscan, hf0, hfi⟩ := scanLoop_bound s.messages cid i hi hcell (-1)
  have hcond : ¬(b = false ∧ f = -1) := by
    rintro ⟨-, habs⟩
    omega
  have hflt : f < (s.messages.length : Int) := by
    have hilen : (i : Int) < (s.messages.length : Int) := by exact_mod_cast hi
    omega
  refine ⟨{ messages := pySliceTo s.messages f,
            cellTracking := rebuildTracking (pySliceTo s.messages f) }, ?_, ?_⟩
  · unfold rollbackToCell
    simp only [if_neg hc, hl, hscan, if_neg hcond, if_pos hflt]
  · show (pySliceTo s.messages f).length < s.messages.length
    unfold pySliceTo
    rw [if_pos hf0]
    rw [List.length_take]
    omega

/-- Claim C10 witness: a concrete tracked state on which the theorem
applies and every hypothesis is discharged by computation. -/
theorem c10_witness :
    ∃ s2, rollbackToCell (hmNew [mkMsg Role.user "a" none, mkMsg Role.user "b" (some "k")]) "k"
        = some (s2, true)
      ∧ s2.messages.length
          < (hmNew [mkMsg Role.user "a" none, mkMsg Role.user "b" (some "k")]).messages.length :=
  c10_rollback_true_under_invariant
    (hmNew [mkMsg Role.user "a" none, mkMsg Role.user "b" (some "k")]) "k" 1
    (by decide) (by decide) (by decide) (by decide)

/-- Claim C7 (corrected) counterexample: on the tracked ledger
`[c1, c2, c1]` (reachable by three `add_message` calls), the first
`rollback_to_cell("c1")` truncates only the most recent contiguous run,
leaving `[c1, c2]`, and the *second* call truncates again to `[]` — so
calling rollback with the same key twice in a row does not leave the
ledger unchanged the second time on every ledger. -/
theorem c7_counterexample :
    rollbackToCell
        (hmNew [mkMsg Role.user "a" (some "c1"), mkMsg Role.user "b" (some "c2"),
                mkMsg Role.user "c" (some "c1")]) "c1"
      = some (hmNew [mkMsg Role.user "a" (some "c1"), mkMsg Role.user "b" (some "c2")], true)
    ∧ rollbackToCell
        (hmNew [mkMsg Role.user "a" (some "c1"), mkMsg Role.user "b" (some "c2")]) "c1"
      = some (hmNew [], true)
    ∧ (hmNew ([] : List Msg)).messages
        ≠ (hmNew [mkMsg Role.user "a" (some "c1"), mkMsg Role.user "b" (some "c2")]).messages := by
  refine ⟨by decide, by decide, by decide⟩

/-- Claim C7 (amended): `rollback_to_cell(k)` on a tracked ledger to
which `k` never contributed leaves the ledger unchanged and reports
`False`; and when `k`'s contributions form one contiguous block, a second
consecutive rollback with the same key leaves the ledger unchanged and
reports `False`. -/
theorem c7_amended_rollback_noop (s : HMState) (cid : String)
    (pre block post : List Msg)
    (ht : tracked s) (hcid : cid ≠ "")
    (hd : s.messages = pre ++ (block ++ post))
    (hpre : ∀ m ∈ pre, m.cellId ≠ some cid)
    (hblock : ∀ m ∈ block, m.cellId = some cid)
    (hpost : ∀ m ∈ post, m.cellId ≠ some cid) :
    (block = [] → rollbackToCell s cid = some (s, false))
    ∧ ∀ s1 b1, rollbackToCell s cid = some (s1, b1) →
        rollbackToCell s1 cid = some (s1, false) := by
  have hnomem : block = [] → ∀ m ∈ s.messages, m.cellId ≠ some cid := by
    intro hb m hm
    rw [hd, hb] at hm
    simp only [List.nil_append, List.mem_append] at hm
    rcases hm with hm | hm
    · exact hpre m hm
    · exact hpost m hm
  constructor
  · intro hb
    exact rollbackToCell_of_lookup_none s cid
      (tracked_lookup_none s cid ht (hnomem hb))
  · intro s1 b1 h1
    by_cases hbe : block = []
    · have hfirst : rollbackToCell s cid = some (s, false) :=
        rollbackToCell_of_lookup_none s cid
          (tracked_lookup_none s cid ht (hnomem hbe))
      rw [hfirst] at h1
      simp only [Option.some.injEq, Prod.mk.injEq] at h1
      obtain ⟨rfl, -⟩ := h1
      exact hfirst
    · have hfirst := rollbackToCell_contiguous s cid pre block post
        ht hcid hd hpre hblock hbe hpost
      rw [hfirst] at h1
      simp only [Option.some.injEq, Prod.mk.injEq] at h1
      obtain ⟨rfl, -⟩ := h1
      exact rollbackToCell_of_lookup_none _ cid
        (tracked_lookup_none _ cid (hmNew_tracked pre) hpre)

/-- Claim C7 witness: the theorem applied to the concrete tracked ledger
`[other(c2), k, k]` with key `k`, discharging contiguity by computation. -/
theorem c7_witness :
    (([mkMsg Role.user "x" (some "k"), mkMsg Role.user "y" (some "k")] : List Msg) = [] →
      rollbackToCell
        (hmNew [mkMsg Role.user "o" (some "c2"), mkMsg Role.user "x" (some "k"),
                mkMsg Role.user "y" (some "k")]) "k"
        = some (hmNew [mkMsg Role.user "o" (some "c2"), mkMsg Role.user "x" (some "k"),
                mkMsg Role.user "y" (some "k")], false))
    ∧ ∀ s1 b1,
        rollbackToCell
          (hmNew [mkMsg Role.user "o" (some "c2"), mkMsg Role.user "x" (some "k"),
                  mkMsg Role.user "y" (some "k")]) "k" = some (s1, b1) →
        rollbackToCell s1 "k" = some (s1, false) :=
  c7_amended_rollback_noop
    (hmNew [mkMsg Role.user "o" (some "c2"), mkMsg Role.user "x" (some "k"),
            mkMsg Role.user "y" (some "k")]) "k"
    [mkMsg Role.user "o" (some "c2")]
    [mkMsg Role.user "x" (some "k"), mkMsg Role.user "y" (some "k")] []
    (by decide) (by decide) (by decide) (by decide) (by decide) (by decide)

/-- The state reached from an empty `ConversationManager` after a single
`add_message` of a user message from cell `c1` (e.g. the prior run of the
cell failed after the user message and before a reply). -/
def c1State : CMState := cmAddMessage cmNew (mkMsg Role.user "x" (some "c1"))

/-- Claim C1: the cell `c1` contributed a (trivially contiguous) block —
its one user message, tracked at index 0 — yet
`ConversationManager.perform_rollback("c1")` removes nothing and reports
no rollback, because it additionally requires the tracked entry to be an
assistant message preceded by a user message; the claim demands
truncation back to the empty ledger regardless of roles. -/
theorem c1_perform_rollback_role_gate :
    performRollback c1State (some "c1") = (c1State, false)
    ∧ c1State.messages = [mkMsg Role.user "x" (some "c1")]
    ∧ dlookup c1State.cellLastMessageIndex "c1" = some 0 :=
  ⟨by decide, by decide, by decide⟩

/-- The state reached from an empty `ConversationManager` after two
chat turns: user/assistant from cell `c1`, then user/assistant from cell
`c2`. -/
def c2State : CMState :=
  cmAddMessage
    (cmAddMessage
      (cmAddMessage (cmAddMessage cmNew (mkMsg Role.user "u1" (some "c1")))
        (mkMsg Role.assistant "a1" (some "c1")))
      (mkMsg Role.user "u2" (some "c2")))
    (mkMsg Role.assistant "a2" (some "c2"))

/-- Claim C2: after `ConversationManager.perform_rollback("c1")` on the
two-turn ledger, the tracking index still maps `c2` to position 3 while
the ledger is empty — the tracked position is out of bounds and the index
differs from the map recomputed by a scan of the entries, violating the
invariant the claim asserts for every ledger-mutating operation. -/
theorem c2_stale_tracking_after_perform_rollback :
    (performRollback c2State (some "c1")).2 = true
    ∧ (performRollback c2State (some "c1")).1.messages.length = 0
    ∧ dlookup (performRollback c2State (some "c1")).1.cellLastMessageIndex "c2" = some 3
    ∧ dlookup (rebuildTracking (performRollback c2State (some "c1")).1.messages) "c2" = none :=
  ⟨by decide, by decide, by decide, by decide⟩

/-- Claim C8 (corrected) counterexample: after a failed call has been
compensated (the appended user message removed), running
`revert_last_turn` a second time is not a no-op — it removes the trailing
system message as well, because the operation re-derives what to remove
from the trailing roles instead of checking a tracked position. -/
theorem c8_counterexample :
    revertLastTurn
        (hmAddMessage (hmNew [mkMsg Role.system "s" none]) (mkMsg Role.user "h" none))
      = hmNew [mkMsg Role.system "s" none]
    ∧ revertLastTurn (hmNew [mkMsg Role.system "s" none]) = hmNew []
    ∧ hmNew ([] : List Msg) ≠ hmNew [mkMsg Role.system "s" none] :=
  ⟨by decide, by decide, by decide⟩

/-- Claim C8 (amended): after a failed call, `revert_last_turn` removes
exactly the user message appended for that call, restoring the ledger to
its state before the append — but it decides what to remove by inspecting
the roles of the trailing entries, not by a position check, and it is not
idempotent: a second invocation removes further trailing entries. -/
theorem c8_amended_revert_removes_user (s : HMState) (u : Msg)
    (ht : tracked s) (hu : u.role = Role.user) :
    revertLastTurn (hmAddMessage s u) = s :=
  revertLastTurn_add s u ht hu

/-- Claim C8 witness: the amended theorem applied to a concrete tracked
state and user message. -/
theorem c8_witness :
    revertLastTurn
        (hmAddMessage (hmNew [mkMsg Role.system "sw" none]) (mkMsg Role.user "hw" none))
      = hmNew [mkMsg Role.system "sw" none] :=
  c8_amended_revert_removes_user (hmNew [mkMsg Role.system "sw" none])
    (mkMsg Role.user "hw" none) (by decide) (by decide)

/-- The two-entry ledger of the atomic-revert scenario, produced by cell
`c1`. -/
def c3Pre : HMState :=
  hmNew [mkMsg Role.user "x" (some "c1"), mkMsg Role.assistant "y" (some "c1")]

/-- Claim C3 (corrected) counterexample: the ledger has 2 entries, the
same cell `c1` re-runs `send_message` with history enabled and the model
client raises; the auto-rollback step truncates the previous turn before
the client is invoked, so after the failed call the ledger has 0 entries,
not 2 — the error still propagates. -/
theorem c3_counterexample :
    c3Pre.messages.length = 2
    ∧ (sendMessage c3Pre "hello" none (some "c1") true true none [] []
        (some "gpt") (Except.error ())).1.messages.length = 0
    ∧ (sendMessage c3Pre "hello" none (some "c1") true true none [] []
        (some "gpt") (Except.error ())).2 = Except.error SendErr.llmInteraction :=
  ⟨by decide, by decide, by rfl⟩

/-- Claim C3 (amended): when the model client raises during a
`send_message` call with history enabled (and a model name is
resolvable), the final ledger equals the ledger as it stood immediately
after the call's auto-rollback step, and the error propagates; in
particular, whenever the auto-rollback step does not fire (for example
the cell never contributed before), the ledger is exactly as it was
before the call began. -/
theorem c3_amended_atomic_revert (pre : HMState) (prompt : String)
    (execCount : Option Int) (cellId : Option String) (autoRollback : Bool)
    (persona : Option PersonaConfig)
    (overrides runtimeParams : List (String × String))
    (defaultModelName : Option String)
    (ht : tracked pre)
    (hm : strOptFalsy (resolvedModelName persona overrides runtimeParams defaultModelName)
      = false) :
    sendMessage pre prompt execCount cellId true autoRollback persona overrides
        runtimeParams defaultModelName (Except.error ())
      = (rollbackPhase pre cellId autoRollback, Except.error SendErr.llmInteraction)
    ∧ (dlookup pre.cellTracking (cellId.getD "") = none →
        rollbackPhase pre cellId autoRollback = pre) := by
  constructor
  · unfold sendMessage
    simp only [hm, Bool.false_eq_true, if_false, if_true]
    rw [revertLastTurn_add _ _ (rollbackPhase_tracked pre cellId autoRollback ht) rfl]
  · intro h
    exact rollbackPhase_of_lookup_none pre cellId autoRollback h

/-- Claim C3 witness: the amended theorem at a concrete empty tracked
ledger with a default model configured. -/
theorem c3_witness :
    sendMessage (hmNew []) "hi" none none true true none [] [] (some "gpt4")
        (Except.error ())
      = (rollbackPhase (hmNew []) none true, Except.error SendErr.llmInteraction)
    ∧ (dlookup (hmNew ([] : List Msg)).cellTracking ((none : Option String).getD "") = none →
        rollbackPhase (hmNew []) none true = hmNew []) :=
  c3_amended_atomic_revert (hmNew []) "hi" none none true none [] [] (some "gpt4")
    (by decide) (by decide)

theorem oor_assoc {α : Type} (a b c : Option α) :
    oor (oor a b) c = oor a (oor b c) := by
  cases a <;> rfl

/-- Claim C4: in `ChatManager._resolve_llm_config`, for every key the
resolved value is the value from the highest-precedence layer that
defines it — call-scoped runtime parameters over session-level instance
overrides over persona parameters — and a key absent from all three
layers is absent from the result. -/
theorem c4_config_precedence (persona : PersonaConfig)
    (overrides runtimeParams : List (String × String)) (k : String) :
    dlookup (resolveLlmConfig (some persona) overrides runtimeParams) k
      = oor (dlookup runtimeParams k)
          (oor (dlookup overrides k) (dlookup persona.llmParams k))
    ∧ (dlookup runtimeParams k = none → dlookup overrides k = none →
        dlookup persona.llmParams k = none →
        dlookup (resolveLlmConfig (some persona) overrides runtimeParams) k = none) := by
  have h1 : dlookup (resolveLlmConfig (some persona) overrides runtimeParams) k
      = oor (dlookup runtimeParams k)
          (oor (dlookup overrides k) (dlookup persona.llmParams k)) := by
    unfold resolveLlmConfig
    rw [dlookup_append, dlookup_append]
  refine ⟨h1, fun hr ho hp => ?_⟩
  rw [h1, hr, ho, hp]
  rfl

/-- Claim C4 witness: the precedence theorem applied to concrete layers,
with the absence clause discharged at a key defined by no layer. -/
theorem c4_witness :
    dlookup (resolveLlmConfig
      (some { name := "pw", systemPrompt := "sp", llmParams := [("temperature", "1")] })
      [("top_p", "2")] [("n", "3")]) "absent" = none :=
  (c4_config_precedence
    { name := "pw", systemPrompt := "sp", llmParams := [("temperature", "1")] }
    [("top_p", "2")] [("n", "3")] "absent").2 (by decide) (by decide) (by decide)

/-- Claim C6 (corrected) counterexample: a persona that declares the
unrecognized parameter `foo` has that parameter present in the set
`ChatManager.send_message` forwards to the model client —
`_resolve_llm_config` applies no allow-list at all. -/
theorem c6_counterexample :
    dlookup (forwardedLlmConfig
      (some { name := "p6", systemPrompt := "sp", llmParams := [("foo", "1")] }) [] []) "foo"
      = some "1"
    ∧ ¬ ("foo" ∈ svValidLlmParams) :=
  ⟨by decide, by decide⟩

/-- Claim C6 (amended): in `ConversationManager.chat`, a temporary
persona's declared parameter whose key is outside the allow-list (and is
not `model`, which is handled separately) never appears in the
`llm_params` forwarded to the model client, unless the same key is
independently supplied by the call's `overrides` or remaining keyword
arguments. -/
theorem c6_amended_persona_filter (modelName : String)
    (personaCfg overridesArg kwargs : List (String × String)) (k : String)
    (hvalid : ¬ k ∈ chatValidLlmParams) (hmodel : k ≠ "model")
    (hov : dlookup overridesArg k = none) (hkw : dlookup kwargs k = none) :
    dlookup (chatLlmParams modelName personaCfg overridesArg kwargs) k = none := by
  unfold chatLlmParams
  rw [dlookup_append, dlookup_append, dlookup_append, hov, hkw]
  have hfilter : dlookup
      (personaCfg.filter (fun kv => decide (kv.1 ∈ chatValidLlmParams))) k = none := by
    apply dlookup_none_of_all
    intro kv hkv hk
    have hmem := List.of_mem_filter hkv
    rw [hk] at hmem
    exact hvalid (by simpa using hmem)
  have hmodelk : ("model" : String) ≠ k := fun h => hmodel h.symm
  have hmod : dlookup [(("model" : String), modelName)] k = none := by
    simp [dlookup, hmodelk]
  rw [hfilter, hmod]
  rfl

/-- Claim C6 witness: the amended theorem applied to a persona declaring
the non-allow-listed key `foo` alongside allow-listed overrides. -/
theorem c6_witness :
    dlookup (chatLlmParams "gpt" [("foo", "1")] [("temperature", "0")]
      [("stream", "x")]) "foo" = none :=
  c6_amended_persona_filter "gpt" [("foo", "1")] [("temperature", "0")]
    [("stream", "x")] "foo" (by decide) (by decide) (by decide) (by decide)

/-- Claim C9 (spec-modelled): a message whose id is unset and that
carries an execution context receives, through
`ConversationManager.add_message`, the id
`generate_message_id(role, content, cell_id, execution_count)`; two such
messages agreeing on those four fields receive the same id in any two
runs. -/
theorem c9_message_id_deterministic (s t : CMState) (m n : Msg)
    (hm : m.id = "") (hn : n.id = "")
    (hrole : m.role = n.role) (hcontent : m.content = n.content)
    (hcell : m.cellId = n.cellId) (hexec : m.executionCount = n.executionCount)
    (_hctx : m.cellId ≠ none) :
    ((cmAddMessage s m).messages.getLast?).map (fun x => x.id)
      = some (generateMessageId m.role m.content m.cellId m.executionCount)
    ∧ ((cmAddMessage s m).messages.getLast?).map (fun x => x.id)
      = ((cmAddMessage t n).messages.getLast?).map (fun x => x.id) := by
  have hlast : ∀ (u : CMState) (w : Msg),
      (cmAddMessage u w).messages.getLast?
        = some (if w.id = "" then
            { w with id := generateMessageId w.role w.content w.cellId w.executionCount }
          else w) := by
    intro u w
    show (u.messages ++ [_]).getLast? = _
    exact List.getLast?_concat _
  constructor
  · rw [hlast s m]
    simp [hm]
  · rw [hlast s m, hlast t n]
    simp [hm, hn, hrole, hcontent, hcell, hexec]

/-- The concrete message of the C9 witness: unset id, execution context
present. -/
def c9m : Msg :=
  { role := Role.user, content := "w9", id := "",
    executionCount := some 5, cellId := some "c9" }

/-- Claim C9 witness: adding the same message content under the same
execution context to two different conversation states yields the same
deterministic id. -/
theorem c9_witness :
    ((cmAddMessage cmNew c9m).messages.getLast?).map (fun x => x.id)
      = some (generateMessageId c9m.role c9m.content c9m.cellId c9m.executionCount)
    ∧ ((cmAddMessage cmNew c9m).messages.getLast?).map (fun x => x.id)
      = ((cmAddMessage (cmAddMessage cmNew (mkMsg Role.system "other" none)) c9m).messages.getLast?).map
          (fun x => x.id) :=
  c9_message_id_deterministic cmNew (cmAddMessage cmNew (mkMsg Role.system "other" none))
    c9m c9m rfl rfl rfl rfl rfl rfl (by decide)

/-! ### Deduplicator lemmas -/

theorem contentDedup_cons (p : String) (m : Msg) (l : List Msg) :
    contentDedup p (m :: l)
      = if m.content = p ∨ m.content ∈ (contentDedup p l).map (fun x => x.content)
        then contentDedup p l else m :: contentDedup p l := rfl

theorem contentDedup_sublist (p : String) (l : List Msg) :
    (contentDedup p l).Sublist l := by
  induction l with
  | nil => simp [contentDedup]
  | cons m l ih =>
    rw [contentDedup_cons]
    split
    · exact ih.cons m
    · exact ih.cons₂ m

theorem dedupKeepLatest_cons (m : Msg) (l : List Msg) :
    dedupKeepLatest (m :: l)
      = if msgKey m ∈ (dedupKeepLatest l).map msgKey
        then dedupKeepLatest l else m :: dedupKeepLatest l := rfl

theorem dedupKeepLatest_sublist (l : List Msg) :
    (dedupKeepLatest l).Sublist l := by
  induction l with
  | nil => simp [dedupKeepLatest]
  | cons m l ih =>
    rw [dedupKeepLatest_cons]
    split
    · exact ih.cons m
    · exact ih.cons₂ m

theorem contentDedup_nodup (p : String) (l : List Msg) :
    ((contentDedup p l).map (fun x => x.content)).Nodup
    ∧ p ∉ (contentDedup p l).map (fun x => x.content) := by
  induction l with
  | nil => simp [contentDedup]
  | cons m l ih =>
    obtain ⟨ih1, ih2⟩ := ih
    rw [contentDedup_cons]
    by_cases hcond : m.content = p
        ∨ m.content ∈ (contentDedup p l).map (fun x => x.content)
    · rw [if_pos hcond]
      exact ⟨ih1, ih2⟩
    · rw [if_neg hcond]
      push_neg at hcond
      obtain ⟨hne, hnotin⟩ := hcond
      refine ⟨?_, ?_⟩
      · simp only [List.map_cons, List.nodup_cons]
        exact ⟨hnotin, ih1⟩
      · simp only [List.map_cons, List.mem_cons, not_or]
        exact ⟨fun h => hne h.symm, ih2⟩

theorem contentDedup_complete (p : String) (l : List Msg) :
    ∀ m ∈ l, m.content = p
      ∨ m.content ∈ (contentDedup p l).map (fun x => x.content) := by
  induction l with
  | nil => simp
  | cons m0 l ih =>
    intro m hm
    rcases List.mem_cons.mp hm with heq | hm2
    · subst heq
      by_cases hcond : m.content = p
          ∨ m.content ∈ (contentDedup p l).map (fun x => x.content)
      · rcases hcond with h | h
        · exact Or.inl h
        · right
          rw [contentDedup_cons, if_pos (Or.inr h)]
          exact h
      · right
        rw [contentDedup_cons, if_neg hcond]
        simp
    · rcases ih m hm2 with h | h
      · exact Or.inl h
      · right
        rw [contentDedup_cons]
        by_cases hcond : m0.content = p
            ∨ m0.content ∈ (contentDedup p l).map (fun x => x.content)
        · rw [if_pos hcond]
          exact h
        · rw [if_neg hcond]
          simp only [List.map_cons, List.mem_cons]
          exact Or.inr h

theorem dedupMessages_eq (msgs : List Msg) (hne : msgs ≠ []) :
    dedupMessages msgs
      = match List.insertionSort msgLenLe (msgs.filter (fun m => m.role == Role.system)) with
        | [] => dedupKeepLatest (msgs.filter (fun m => m.role != Role.system))
        | p :: rest =>
          p :: (contentDedup p.content rest
            ++ dedupKeepLatest (msgs.filter (fun m => m.role != Role.system))) := by
  unfold dedupMessages
  rw [if_neg hne]

/-- Claim C5 (corrected) counterexample: with the input system messages
`"s"`, `"zzz"`, `"yy"` (in that order), the deduplicated output lists the
non-persona system messages as `"yy", "zzz"` — sorted by content length —
whereas the claim's input relative order would be `"zzz", "yy"`. -/
theorem c5_counterexample :
    (dedupMessages [mkMsg Role.system "s" none, mkMsg Role.system "zzz" none,
        mkMsg Role.system "yy" none]).map (fun m => m.content)
      = ["s", "yy", "zzz"]
    ∧ (dedupMessages [mkMsg Role.system "s" none, mkMsg Role.system "zzz" none,
        mkMsg Role.system "yy" none]).map (fun m => m.content)
      ≠ ["s", "zzz", "yy"] :=
  ⟨by decide, by decide⟩

/-- Claim C5 (amended): in the Deduplicator's output, the system
messages (persona first) are ordered by non-decreasing content length —
not by input relative order — are pairwise distinct in content, each of
them occurs in the input, and every input system message's content is
represented among them. -/
theorem c5_amended_dedup_system_order (msgs : List Msg) :
    List.Pairwise msgLenLe
      ((dedupMessages msgs).filter (fun m => m.role == Role.system))
    ∧ (((dedupMessages msgs).filter (fun m => m.role == Role.system)).map
        (fun m => m.content)).Nodup
    ∧ (∀ m ∈ (dedupMessages msgs).filter (fun m => m.role == Role.system), m ∈ msgs)
    ∧ (∀ m ∈ msgs, m.role = Role.system →
        m.content ∈ (((dedupMessages msgs).filter (fun m => m.role == Role.system)).map
          (fun m => m.content))) := by
  by_cases hne : msgs = []
  · subst hne
    refine ⟨by simp [dedupMessages], by simp [dedupMessages], ?_, ?_⟩
    · intro m hm
      simp [dedupMessages] at hm
    · intro m hm
      simp at hm
  · have hperm : List.Perm
        (List.insertionSort msgLenLe (msgs.filter (fun m => m.role == Role.system)))
        (msgs.filter (fun m => m.role == Role.system)) :=
      List.perm_insertionSort msgLenLe _
    have hsorted : List.Pairwise msgLenLe
        (List.insertionSort msgLenLe (msgs.filter (fun m => m.role == Role.system))) :=
      List.sorted_insertionSort msgLenLe _
    have hnondedupRole : ∀ m ∈ dedupKeepLatest (msgs.filter (fun m => m.role != Role.system)),
        (m.role == Role.system) = false := by
      intro m hm
      have hmem := (dedupKeepLatest_sublist _).mem hm
      have := List.of_mem_filter hmem
      simp only [bne_iff_ne, ne_eq] at this
      simp [this]
    rcases hsort : List.insertionSort msgLenLe (msgs.filter (fun m => m.role == Role.system))
      with _ | ⟨p, rest⟩
    · -- no system messages at all
      have hsysnil : msgs.filter (fun m => m.role == Role.system) = [] := by
        have := hperm
        rw [hsort] at this
        exact this.symm.eq_nil
      have hout : dedupMessages msgs
          = dedupKeepLatest (msgs.filter (fun m => m.role != Role.system)) := by
        rw [dedupMessages_eq msgs hne, hsort]
      have hfilter : (dedupMessages msgs).filter (fun m => m.role == Role.system) = [] := by
        rw [hout]
        rw [List.filter_eq_nil_iff]
        intro m hm
        have := hnondedupRole m hm
        simp [this]
      refine ⟨by rw [hfilter]; exact List.Pairwise.nil, by rw [hfilter]; simp, ?_, ?_⟩
      · intro m hm
        rw [hfilter] at hm
        simp at hm
      · intro m hm hrole
        exfalso
        have : m ∈ msgs.filter (fun m => m.role == Role.system) :=
          List.mem_filter.mpr ⟨hm, by simp [hrole]⟩
        rw [hsysnil] at this
        simp at this
    · -- persona message present
      have hroleSorted : ∀ m ∈ p :: rest, (m.role == Role.system) = true := by
        intro m hm
        have hmem : m ∈ msgs.filter (fun x => x.role == Role.system) := by
          refine hperm.mem_iff.mp ?_
          rw [hsort]
          exact hm
        exact (List.mem_filter.mp hmem).2
      have hout : dedupMessages msgs
          = p :: (contentDedup p.content rest
              ++ dedupKeepLatest (msgs.filter (fun m => m.role != Role.system))) := by
        rw [dedupMessages_eq msgs hne, hsort]
      have hfilter : (dedupMessages msgs).filter (fun m => m.role == Role.system)
          = p :: contentDedup p.content rest := by
        rw [hout]
        have hp : (p.role == Role.system) = true := hroleSorted p (by simp)
        simp only [List.filter_cons, hp, if_true, List.filter_append]
        have h1 : (contentDedup p.content rest).filter (fun m => m.role == Role.system)
            = contentDedup p.content rest := by
          rw [List.filter_eq_self]
          intro m hm
          exact hroleSorted m (List.mem_cons_of_mem p ((contentDedup_sublist _ _).mem hm))
        have h2 : (dedupKeepLatest (msgs.filter (fun m => m.role != Role.system))).filter
            (fun m => m.role == Role.system) = [] := by
          rw [List.filter_eq_nil_iff]
          intro m hm
          have := hnondedupRole m hm
          simp [this]
        rw [h1, h2, List.append_nil]
      have hsubl : (p :: contentDedup p.content rest).Sublist (p :: rest) :=
        (contentDedup_sublist p.content rest).cons₂ p
      have hsortcons : List.Pairwise msgLenLe (p :: rest) := by
        rw [← hsort]
        exact hsorted
      refine ⟨?_, ?_, ?_, ?_⟩
      · rw [hfilter]
        exact hsortcons.sublist hsubl
      · rw [hfilter]
        simp only [List.map_cons, List.nodup_cons]
        exact ⟨(contentDedup_nodup p.content rest).2, (contentDedup_nodup p.content rest).1⟩
      · intro m hm
        rw [hfilter] at hm
        have hmem : m ∈ p :: rest := hsubl.mem hm
        have : m ∈ msgs.filter (fun x => x.role == Role.system) := by
          refine hperm.mem_iff.mp ?_
          rw [hsort]
          exact hmem
        exact List.mem_of_mem_filter this
      · intro m hm hrole
        have hmemf : m ∈ msgs.filter (fun x => x.role == Role.system) :=
          List.mem_filter.mpr ⟨hm, by simp [hrole]⟩
        have hmems : m ∈ p :: rest := by
          have := hperm.mem_iff.mpr hmemf
          rw [hsort] at this
          exact this
        rw [hfilter]
        rcases List.mem_cons.mp hmems with heq | hrest
        · subst heq
          simp
        · rcases contentDedup_complete p.content rest m hrest with h | h
          · rw [h]
            simp
          · simp only [List.map_cons, List.mem_cons]
            exact Or.inr h

/-- Claim C5 witness: the amended theorem applied to a concrete mixed
input, with the completeness clause instantiated at one of its system
messages. -/
theorem c5_witness :
    (mkMsg Role.system "wzz" none).content
      ∈ (((dedupMessages [mkMsg Role.system "ws" none, mkMsg Role.system "wzz" none,
            mkMsg Role.user "wu" none]).filter (fun m => m.role == Role.system)).map
          (fun m => m.content)) :=
  (c5_amended_dedup_system_order
      [mkMsg Role.system "ws" none, mkMsg Role.system "wzz" none,
        mkMsg Role.user "wu" none]).2.2.2
    (mkMsg Role.system "wzz" none) (by decide) (by decide)
